import Mathlib

set_option maxHeartbeats 1000000

/-!
Shallow embedding of the rarc archive reader (src/lib.rs, src/parser.rs,
src/parse_read.rs, src/error.rs, src/vfs.rs).

Machine integers are modelled as `Nat` with explicit reduction modulo
`2 ^ 32` (resp. `2 ^ 16`) wherever the Rust `u32`/`u16` arithmetic wraps
(release semantics; in debug builds the same overflow aborts, which is
noted where it matters).  Byte strings are `List Nat` with entries below
256.  Fallible code returns `Except`/`Option`; a Rust `panic` escaping a
function is modelled by a dedicated `panicked` outcome; `none` on
fuel-indexed recursion stands for non-termination of the source loop.
-/

/-- Wrapping 32-bit addition (Rust `u32` `+` in release mode). -/
def add32 (a b : Nat) : Nat := (a + b) % 4294967296

/-- Wrapping 32-bit subtraction (Rust `u32` `-` in release mode):
`a - b` computed modulo `2 ^ 32` for `b ≤ 2 ^ 32`. -/
def wsub32 (a b : Nat) : Nat := (a + (4294967296 - b % 4294967296)) % 4294967296

/-- Big-endian byte encoding of a 32-bit value (`write_u32::<BE>`). -/
def u32be (w : Nat) : List Nat :=
  [w / 16777216 % 256, w / 65536 % 256, w / 256 % 256, w % 256]

/-- Big-endian byte encoding of a 16-bit value (`write_u16::<BE>`). -/
def u16be (w : Nat) : List Nat := [w / 256 % 256, w % 256]

/-- nom `Needed`: how much input an incomplete parse wants. -/
inductive Needed where
  | unknown : Needed
  | size (n : Nat) : Needed
deriving DecidableEq, Repr

/-- nom error kinds the modelled parsers can produce. -/
inductive ErrK where
  | tagMismatch : ErrK
  | strDecode : ErrK
deriving DecidableEq, Repr

/-- nom `IResult`, extended with a `panicked` outcome that models a Rust
`panic` escaping the parsing function (parser.rs line 81). -/
inductive IRes (α : Type) where
  | done (rest : List Nat) (v : α) : IRes α
  | perr (k : ErrK) : IRes α
  | incomplete (n : Needed) : IRes α
  | panicked : IRes α
deriving DecidableEq, Repr

/-- A nom-style parsing function: bytes in, `IResult` out. -/
def Parser (α : Type) : Type := List Nat → IRes α

/-- The pure result at the end of a `do_parse!` chain. -/
def pret {α : Type} (v : α) : Parser α := fun input => .done input v

/-- Re-base an `incomplete` requirement produced after `consumed` bytes so
that needed sizes are totals from the start of the original input.  This is
nom's chained-parser behaviour, which parse_read.rs relies on to make
progress (`len - input.len()`). -/
def adjustN {α : Type} (consumed : Nat) : IRes α → IRes α
  | .incomplete (.size n) => .incomplete (.size (consumed + n))
  | r => r

/-- Sequencing of parse steps, as in nom's `do_parse!` macro. -/
def pbind {α β : Type} (p : Parser α) (f : α → Parser β) : Parser β := fun input =>
  match p input with
  | .done rest v => adjustN (input.length - rest.length) (f v rest)
  | .perr k => .perr k
  | .incomplete n => .incomplete n
  | .panicked => .panicked

/-- nom `take!(n)`. -/
def takeP (n : Nat) : Parser (List Nat) := fun input =>
  if input.length < n then .incomplete (.size n)
  else .done (input.drop n) (input.take n)

/-- nom `tag!`: match a fixed byte string; a short input that is still a
prefix of the tag is incomplete, a mismatch is an error. -/
def tagP (t : List Nat) : Parser (List Nat) := fun input =>
  if input.length < t.length then
    if t.take input.length = input then .incomplete (.size t.length) else .perr .tagMismatch
  else if input.take t.length = t then .done (input.drop t.length) t
  else .perr .tagMismatch

/-- Recombine big-endian bytes into a value (`be_u16` / `be_u32` cores). -/
def readBE (bs : List Nat) : Nat := bs.foldl (fun a b => a * 256 + b) 0

/-- nom `be_u32`. -/
def beU32 : Parser Nat := pbind (takeP 4) fun bs => pret (readBE bs)

/-- nom `be_u16`. -/
def beU16 : Parser Nat := pbind (takeP 2) fun bs => pret (readBE bs)

/-- nom `take_str!(4)`: four bytes decoded as UTF-8.  Modelled on the
ASCII plane; a byte ≥ 0x80 (where real UTF-8 decoding may still succeed
for multi-byte sequences) is mapped to a parse error.  Every node id the
claims touch is plain ASCII. -/
def takeStr4 : Parser String := pbind (takeP 4) fun bs =>
  if bs.all (fun b => b < 128) then pret (String.mk (bs.map Char.ofNat))
  else fun _ => .perr .strDecode

/-- lib.rs `Header`. -/
structure HeaderR where
  fileSize : Nat
  dataOffset : Nat
  dataLength : Nat
  nNodes : Nat
  nodesOffset : Nat
  nEntries : Nat
  entriesOffset : Nat
  stringsSize : Nat
  stringsOffset : Nat
  nFiles : Nat
deriving DecidableEq, Repr

/-- parser.rs `parse_header`: magic, fields, and the `+ 0x20` offset
normalization exactly as in the source. -/
def parseHeaderP : Parser HeaderR :=
  pbind (tagP [0x52, 0x41, 0x52, 0x43]) fun _ =>
  pbind beU32 fun fileSize =>
  pbind (tagP [0x00, 0x00, 0x00, 0x20]) fun _ =>
  pbind beU32 fun dataOffset =>
  pbind beU32 fun dataLength =>
  pbind (takeP 4) fun _ =>
  pbind (takeP 8) fun _ =>
  pbind beU32 fun nNodes =>
  pbind beU32 fun nodesOffset =>
  pbind beU32 fun nEntries =>
  pbind beU32 fun entriesOffset =>
  pbind beU32 fun stringsSize =>
  pbind beU32 fun stringsOffset =>
  pbind beU16 fun nFiles =>
  pbind (takeP 2) fun _ =>
  pbind (takeP 4) fun _ =>
  pret { fileSize := fileSize, dataOffset := add32 dataOffset 0x20,
         dataLength := dataLength, nNodes := nNodes,
         nodesOffset := add32 nodesOffset 0x20, nEntries := nEntries,
         entriesOffset := add32 entriesOffset 0x20, stringsSize := stringsSize,
         stringsOffset := add32 stringsOffset 0x20, nFiles := nFiles }

/-- A 0x40-byte wire header block assembled from raw wire field values, in
the layout of parser.rs / `Header::write`: magic, file_size, the fixed
0x20 header-length field, data offset, data length, its duplicate, two
reserved words, the table counts and offsets, n_files and trailing
reserved bytes. -/
def mkWireBlock (fs d dl dup r1 r2 nn no ne eo ss so nf z1 z2 : Nat) : List Nat :=
  [0x52, 0x41, 0x52, 0x43] ++ u32be fs ++ u32be 0x20 ++ u32be d ++ u32be dl ++
  u32be dup ++ u32be r1 ++ u32be r2 ++ u32be nn ++ u32be no ++ u32be ne ++
  u32be eo ++ u32be ss ++ u32be so ++ u16be nf ++ u16be z1 ++ u32be z2

/-- lib.rs `Header::write`: offsets re-based by subtracting 0x20
(wrapping), `data_length` written twice, reserved fields written as
zeros. -/
def headerWrite (h : HeaderR) : List Nat :=
  mkWireBlock h.fileSize (wsub32 h.dataOffset 0x20) h.dataLength h.dataLength 0 0
    h.nNodes (wsub32 h.nodesOffset 0x20) h.nEntries (wsub32 h.entriesOffset 0x20)
    h.stringsSize (wsub32 h.stringsOffset 0x20) h.nFiles 0 0

/-- All `Header` fields are within their Rust integer types. -/
def fieldsInRange (h : HeaderR) : Prop :=
  h.fileSize < 4294967296 ∧ h.dataOffset < 4294967296 ∧ h.dataLength < 4294967296 ∧
  h.nNodes < 4294967296 ∧ h.nodesOffset < 4294967296 ∧ h.nEntries < 4294967296 ∧
  h.entriesOffset < 4294967296 ∧ h.stringsSize < 4294967296 ∧
  h.stringsOffset < 4294967296 ∧ h.nFiles < 65536

instance (h : HeaderR) : Decidable (fieldsInRange h) := by
  unfold fieldsInRange; infer_instance

/-- A valid decoded header: representable fields whose absolute offsets
are at least 0x20 (the invariant the decoder establishes). -/
def validHeader (h : HeaderR) : Prop :=
  fieldsInRange h ∧ 0x20 ≤ h.dataOffset ∧ 0x20 ≤ h.nodesOffset ∧
  0x20 ≤ h.entriesOffset ∧ 0x20 ≤ h.stringsOffset

instance (h : HeaderR) : Decidable (validHeader h) := by
  unfold validHeader; infer_instance

/-- lib.rs `Node`. -/
structure NodeR where
  id : String
  name : Option String
  filenameOffset : Nat
  filenameHash : Nat
  nEntries : Nat
  entryStartId : Nat
deriving DecidableEq, Repr

/-- parser.rs `parse_node`. -/
def parseNodeP : Parser NodeR :=
  pbind takeStr4 fun id =>
  pbind beU32 fun filenameOffset =>
  pbind beU16 fun filenameHash =>
  pbind beU16 fun nEntries =>
  pbind beU32 fun entryStartId =>
  pret { id := id, name := none, filenameOffset := filenameOffset,
         filenameHash := filenameHash, nEntries := nEntries,
         entryStartId := entryStartId }

/-- lib.rs `Entry`: a file (with data bounds) or a folder (with a node
back-reference). -/
inductive EntryR where
  | file (idx hash nameOffset : Nat) (name : Option String)
      (dataOffset dataLength : Nat) : EntryR
  | folder (hash nameOffset : Nat) (name : Option String)
      (folderNodeIdx : Nat) : EntryR
deriving DecidableEq, Repr

/-- lib.rs `Entry::filename_offset`. -/
def EntryR.nameOffset : EntryR → Nat
  | .file _ _ o _ _ _ => o
  | .folder _ o _ _ => o

/-- lib.rs `Entry::name` (the stored optional resolved name). -/
def EntryR.name : EntryR → Option String
  | .file _ _ _ n _ _ => n
  | .folder _ _ n _ => n

/-- Store a resolved name into either entry variant (`Entry::read_name`'s
final match). -/
def EntryR.setName (s : String) : EntryR → EntryR
  | .file i h o _ d l => .file i h o (some s) d l
  | .folder h o _ f => .folder h o (some s) f

/-- parser.rs `parse_entry`: twenty bytes, dispatched on the 16-bit type
tag; tag 0x0200 builds a Folder, 0x1100 builds a File, and any other tag
executes `panic!` (modelled by the `panicked` outcome). -/
def parseEntryP : Parser EntryR :=
  pbind beU16 fun idx =>
  pbind beU16 fun hash =>
  pbind beU16 fun entryTag =>
  pbind beU16 fun nameOffset =>
  pbind beU32 fun dataOffsetOrNodeIndex =>
  pbind beU32 fun fileDataLength =>
  pbind (takeP 4) fun _ =>
  fun input =>
    match entryTag with
    | 0x200 => .done input (.folder hash nameOffset none dataOffsetOrNodeIndex)
    | 0x1100 => .done input (.file idx hash nameOffset none dataOffsetOrNodeIndex fileDataLength)
    | _ => .panicked

/-- `BufRead::read_until(0x00)` over the remainder of the string table:
consumes bytes up to and including the first 0x00, or everything if no
0x00 occurs before the end. -/
def readUntil0 : List Nat → List Nat
  | [] => []
  | b :: rest => if b = 0 then [0] else b :: readUntil0 rest

/-- The byte string `Node::read_name` / `Entry::read_name` hand to the
decoder: seek the cursor to `off` (a seek past the end just yields an
empty read), `read_until(0x00)`, then `pop` the final byte of the buffer
unconditionally. -/
def readNameBytes (table : List Nat) (off : Nat) : List Nat :=
  (readUntil0 (table.drop off)).dropLast

/-- WINDOWS_31J (shift_jis) strict decoding, modelled on the ASCII plane:
a byte ≥ 0x80 (where the real decoder may succeed on a double-byte
sequence or fail) is mapped to a decode error.  Every name the claims
touch is plain ASCII, and the empty byte string decodes to `""` exactly as
in the source. -/
def decodeName (bs : List Nat) : Except String String :=
  if bs.all (fun b => b < 128) then .ok (String.mk (bs.map Char.ofNat))
  else .error "invalid byte sequence"

/-- error.rs `Error`. -/
inductive RErr where
  | ioErr : RErr
  | parseErr (k : ErrK) : RErr
  | noNodes : RErr
  | noRootNode : RErr
  | nameEncodingErr (msg : String) : RErr
deriving DecidableEq, Repr

/-- lib.rs `Node::read_name`. -/
def nodeReadName (table : List Nat) (n : NodeR) : Except RErr NodeR :=
  match decodeName (readNameBytes table n.filenameOffset) with
  | .error msg => .error (.nameEncodingErr msg)
  | .ok s => .ok { n with name := some s }

/-- lib.rs `Entry::read_name`. -/
def entryReadName (table : List Nat) (e : EntryR) : Except RErr EntryR :=
  match decodeName (readNameBytes table e.nameOffset) with
  | .error msg => .error (.nameEncodingErr msg)
  | .ok s => .ok (e.setName s)

/-- One step of lib.rs `filename_hash`: `hash *= 3; hash += chr as u16`,
with wrapping `u16` arithmetic and `as u16` truncation of the code
point. -/
def hashStep (h c : Nat) : Nat := (h * 3 % 65536 + c % 65536) % 65536

/-- lib.rs `filename_hash`. -/
def filenameHash (s : String) : Nat :=
  s.data.foldl (fun h c => hashStep h c.toNat) 0

/-- vfs.rs tree nodes; a `Dir` is flattened into its name plus its ordered
member list. -/
inductive VNode where
  | file (name : String) (bounds : Nat × Nat) : VNode
  | dir (name : String) (members : List VNode) : VNode

/-- lib.rs `Node::entry_range` together with the slice `&entries[range]`
taken in `node_to_dir`; `none` models the Rust panic when the range
exceeds the entry table. -/
def sliceEntries (entries : List EntryR) (node : NodeR) : Option (List EntryR) :=
  if node.entryStartId + node.nEntries ≤ entries.length then
    some ((entries.drop node.entryStartId).take node.nEntries)
  else none

/-- The guard in `node_to_dir`:
`entry.filename_offset() != 0 && entry.filename_offset() != 2`. -/
def keepEntry (e : EntryR) : Bool := e.nameOffset != 0 && e.nameOffset != 2

mutual

/-- lib.rs `node_to_dir` (the recursive tree builder), fuel-indexed:
the result is the built member list of the directory for `node`.  `none`
covers non-termination (fuel exhaustion on a cyclic archive) and the
panicking paths (out-of-range entry slice or node index,
`name().unwrap()` of an unresolved name). -/
def nodeToDir : Nat → List NodeR → List EntryR → NodeR → Option (List VNode)
  | 0, _, _, _ => none
  | Nat.succ fuel, nodes, entries, node =>
    match sliceEntries entries node with
    | none => none
    | some l => buildEntries fuel nodes entries l
termination_by fuel _ _ _ => (fuel, 0)

/-- The body of `node_to_dir`'s `for entry in ...` loop over the remaining
entries of the current node's slice: build the kept entry's child node,
append it, and continue. -/
def buildEntries : Nat → List NodeR → List EntryR → List EntryR → Option (List VNode)
  | _, _, _, [] => some []
  | fuel, nodes, entries, e :: rest =>
    if keepEntry e then
      match buildChild fuel nodes entries e with
      | none => none
      | some v =>
        (buildEntries fuel nodes entries rest).map (fun cs => v :: cs)
    else buildEntries fuel nodes entries rest
termination_by fuel _ _ l => (fuel, l.length + 2)

/-- The `fsnode = match entry ...` step of `node_to_dir`: a File entry
yields a file leaf carrying the entry's resolved name and
`(data_offset, data_length)` bounds; a Folder entry yields the directory
built recursively from `Node[folder_node_idx]`.  `none` stands for the
panicking paths (`name().unwrap()` of an unresolved name, an out-of-range
node index) or exhausted fuel in the recursive call. -/
def buildChild : Nat → List NodeR → List EntryR → EntryR → Option VNode
  | _, _, _, .file _ _ _ nm dOff dLen => nm.map fun s => VNode.file s (dOff, dLen)
  | fuel, nodes, entries, .folder _ _ nm idx =>
    nm.bind fun s => (nodes[idx]?).bind fun child =>
      (nodeToDir fuel nodes entries child).map fun sub => VNode.dir s sub
termination_by fuel _ _ _ => (fuel, 1)

end

/-- `Take::read_to_end`: pull up to `n` bytes from a chunked byte source
(each inner list is what one underlying `read` call yields; `read_to_end`
keeps calling until the limit or the end of the source). -/
def readFromChunks : List (List Nat) → Nat → List Nat × List (List Nat)
  | [], _ => ([], [])
  | c :: src, n =>
    if n = 0 then ([], c :: src)
    else if c.length ≤ n then
      let r := readFromChunks src (n - c.length)
      (c ++ r.1, r.2)
    else (c.take n, c.drop n :: src)

/-- parse_read.rs: the size to grow the buffer to — the needed size when
known, or exactly one byte more than is currently buffered when it is
unknown. -/
def needLen (inputLen : Nat) : Needed → Nat
  | .unknown => inputLen + 1
  | .size l => l

/-- Result of one `parse_read::read` call. -/
inductive PRes (α : Type) where
  | ok (v : α) : PRes α
  | err (k : ErrK) : PRes α
  | panicked : PRes α
deriving DecidableEq, Repr

/-- parse_read.rs `read`: run the parser on the buffered bytes; on
`Incomplete` grow the buffer by `needLen - buffered` bytes from the source
and loop.  Fuel bounds the loop; `none` models non-termination (the source
loop has no exit when the source is exhausted but the parse stays
incomplete).  Returns the result together with the unread source. -/
def parseReadGo {α : Type} :
    Nat → Parser α → List Nat → List (List Nat) → Option (PRes α × List (List Nat))
  | 0, _, _, _ => none
  | Nat.succ fuel, p, input, src =>
    match p input with
    | .done _ v => some (.ok v, src)
    | .perr k => some (.err k, src)
    | .panicked => some (.panicked, src)
    | .incomplete needed =>
      let r := readFromChunks src (needLen input.length needed - input.length)
      parseReadGo fuel p (input ++ r.1) r.2

/-- Outcome of an archive-level operation: success, a returned `Error`, or
a process abort. -/
inductive Outcome (α : Type) where
  | ok (v : α) : Outcome α
  | fail (e : RErr) : Outcome α
  | panicked : Outcome α
deriving DecidableEq, Repr

/-- The per-table loops in `Rarc::new`: parse `count` records sequentially
through the incremental reader, post-processing each record (name
resolution) immediately after decode, failing fast on the first error. -/
def readRecs {α β : Type} (fuel : Nat) (p : Parser α) (post : α → Except RErr β) :
    Nat → List Nat → Option (Outcome (List β × List Nat))
  | 0, src => some (.ok ([], src))
  | Nat.succ c, src =>
    match parseReadGo fuel p [] [src] with
    | none => none
    | some (.panicked, _) => some .panicked
    | some (.err k, _) => some (.fail (.parseErr k))
    | some (.ok v, srcRest) =>
      match post v with
      | .error e => some (.fail e)
      | .ok b =>
        match readRecs fuel p post c srcRest.flatten with
        | none => none
        | some (.ok (bs, rest)) => some (.ok (b :: bs, rest))
        | some (.fail e) => some (.fail e)
        | some .panicked => some .panicked

/-- lib.rs `Rarc` (the reader handle is dropped; the model keeps the
parsed tables and the built filesystem: root directory name and
members). -/
structure RarcM where
  header : HeaderR
  nodes : List NodeR
  entries : List EntryR
  stringTable : List Nat
  rootName : String
  rootMembers : List VNode

/-- lib.rs `Rarc::new` over an absolute-addressed byte source: parse the
header through the incremental reader, reject `NoNodes` on a zero node
count before any table is read, slurp the string table, parse and
name-resolve the nodes, reject `NoRootNode` if the first node's id is not
"ROOT" (before the entry table is read), parse and name-resolve the
entries, then build the tree from node 0.  `none` models non-termination
or a panic inside the tree builder. -/
def rarcNew (fuel : Nat) (bytes : List Nat) : Option (Outcome RarcM) :=
  match parseReadGo fuel parseHeaderP [] [bytes] with
  | none => none
  | some (.panicked, _) => some .panicked
  | some (.err k, _) => some (.fail (.parseErr k))
  | some (.ok h, _) =>
    if h.nNodes = 0 then some (.fail .noNodes)
    else
      match readRecs fuel parseNodeP
          (nodeReadName ((bytes.drop h.stringsOffset).take h.stringsSize))
          h.nNodes (bytes.drop h.nodesOffset) with
      | none => none
      | some .panicked => some .panicked
      | some (.fail e) => some (.fail e)
      | some (.ok (ns, _)) =>
        match ns.head? with
        | none => some .panicked
        | some n0 =>
          if n0.id = "ROOT" then
            match readRecs fuel parseEntryP
                (entryReadName ((bytes.drop h.stringsOffset).take h.stringsSize))
                h.nEntries (bytes.drop h.entriesOffset) with
            | none => none
            | some .panicked => some .panicked
            | some (.fail e) => some (.fail e)
            | some (.ok (es, _)) =>
              match n0.name with
              | none => some .panicked
              | some rootName =>
                match nodeToDir fuel ns es n0 with
                | none => none
                | some members => some (.ok ⟨h, ns, es,
                    (bytes.drop h.stringsOffset).take h.stringsSize,
                    rootName, members⟩)
          else some (.fail .noRootNode)

theorem pbind_dd {α β : Type} {p : Parser α} {f : α → Parser β}
    {input rest rest2 : List Nat} {v : α} {w : β}
    (hp : p input = .done rest v) (hf : f v rest = .done rest2 w) :
    pbind p f input = .done rest2 w := by
  simp only [pbind, hp, hf, adjustN]

theorem tagP_self (t rest : List Nat) : tagP t (t ++ rest) = .done rest t := by
  unfold tagP
  rw [if_neg (by rw [List.length_append]; omega), if_pos (List.take_left t rest),
    List.drop_left]

theorem takeP_exact (l rest : List Nat) : takeP l.length (l ++ rest) = .done rest l := by
  unfold takeP
  rw [if_neg (by rw [List.length_append]; omega), List.take_left, List.drop_left]

theorem takeP4_u32be (w : Nat) (rest : List Nat) :
    takeP 4 (u32be w ++ rest) = .done rest (u32be w) := by
  have h : (u32be w).length = 4 := by simp [u32be]
  rw [← h, takeP_exact]

theorem takeP4_u32be_nil (w : Nat) : takeP 4 (u32be w) = .done [] (u32be w) := by
  have h := takeP4_u32be w []
  rwa [List.append_nil] at h

theorem takeP2_u16be (w : Nat) (rest : List Nat) :
    takeP 2 (u16be w ++ rest) = .done rest (u16be w) := by
  have h : (u16be w).length = 2 := by simp [u16be]
  rw [← h, takeP_exact]

theorem takeP8_pair (a b : Nat) (rest : List Nat) :
    takeP 8 (u32be a ++ (u32be b ++ rest)) = .done rest (u32be a ++ u32be b) := by
  have h : (u32be a ++ u32be b).length = 8 := by simp [u32be]
  rw [← List.append_assoc, ← h, takeP_exact]

theorem readBE_u32be (w : Nat) (hw : w < 4294967296) : readBE (u32be w) = w := by
  simp only [readBE, u32be, List.foldl_cons, List.foldl_nil]
  omega

theorem readBE_u16be (w : Nat) (hw : w < 65536) : readBE (u16be w) = w := by
  simp only [readBE, u16be, List.foldl_cons, List.foldl_nil]
  omega

theorem beU32_u32be (w : Nat) (rest : List Nat) (hw : w < 4294967296) :
    beU32 (u32be w ++ rest) = .done rest w := by
  have h := readBE_u32be w hw
  simp only [beU32]
  exact pbind_dd (takeP4_u32be w rest) (by simp [pret, h])

theorem beU16_u16be (w : Nat) (rest : List Nat) (hw : w < 65536) :
    beU16 (u16be w ++ rest) = .done rest w := by
  have h := readBE_u16be w hw
  simp only [beU16]
  exact pbind_dd (takeP2_u16be w rest) (by simp [pret, h])

set_option maxHeartbeats 4000000 in
theorem parseHeaderP_mkWireBlock
    (fs d dl dup r1 r2 nn no ne eo ss so nf z1 z2 : Nat)
    (hfs : fs < 4294967296) (hd : d < 4294967296) (hdl : dl < 4294967296)
    (hnn : nn < 4294967296) (hno : no < 4294967296) (hne : ne < 4294967296)
    (heo : eo < 4294967296) (hss : ss < 4294967296) (hso : so < 4294967296)
    (hnf : nf < 65536) :
    parseHeaderP (mkWireBlock fs d dl dup r1 r2 nn no ne eo ss so nf z1 z2) =
      .done [] ⟨fs, add32 d 0x20, dl, nn, add32 no 0x20, ne, add32 eo 0x20,
        ss, add32 so 0x20, nf⟩ := by
  have h20 : u32be 0x20 = [0x00, 0x00, 0x00, 0x20] := by decide
  unfold mkWireBlock parseHeaderP
  rw [h20]
  refine pbind_dd (tagP_self _ _) ?_
  refine pbind_dd (beU32_u32be _ _ hfs) ?_
  refine pbind_dd (tagP_self _ _) ?_
  refine pbind_dd (beU32_u32be _ _ hd) ?_
  refine pbind_dd (beU32_u32be _ _ hdl) ?_
  refine pbind_dd (takeP4_u32be _ _) ?_
  refine pbind_dd (takeP8_pair _ _ _) ?_
  refine pbind_dd (beU32_u32be _ _ hnn) ?_
  refine pbind_dd (beU32_u32be _ _ hno) ?_
  refine pbind_dd (beU32_u32be _ _ hne) ?_
  refine pbind_dd (beU32_u32be _ _ heo) ?_
  refine pbind_dd (beU32_u32be _ _ hss) ?_
  refine pbind_dd (beU32_u32be _ _ hso) ?_
  refine pbind_dd (beU16_u16be _ _ hnf) ?_
  refine pbind_dd (takeP2_u16be _ _) ?_
  refine pbind_dd (takeP4_u32be_nil _) ?_
  rfl

theorem addsub32_cancel (x : Nat) (hx : x < 4294967296) :
    add32 (wsub32 x 0x20) 0x20 = x := by
  unfold add32 wsub32; omega

theorem subadd32_cancel (x : Nat) (hx : x < 4294967296) :
    wsub32 (add32 x 0x20) 0x20 = x := by
  unfold add32 wsub32; omega

theorem add32_small (a b : Nat) (h : a + b < 4294967296) : add32 a b = a + b := by
  unfold add32; omega

theorem wsub32_no_underflow (x : Nat) (h1 : 0x20 ≤ x) (h2 : x < 4294967296) :
    wsub32 x 0x20 = x - 0x20 := by
  unfold wsub32; omega

theorem wsub32_lt_u32 (a b : Nat) : wsub32 a b < 4294967296 :=
  Nat.mod_lt _ (by norm_num)

/-- C2: decoding the bytes produced by the header encoder yields an equal
Header for every valid header, and encoding the decoded header reproduces
every well-formed 0x40-byte header block (every such block is
`mkWireBlock` of its wire fields with the data-length duplicate and zeroed
reserved fields), including the 0x20 offset normalization. -/
theorem spec_c2_header_roundtrip :
    (∀ h : HeaderR, validHeader h → parseHeaderP (headerWrite h) = .done [] h) ∧
    (∀ wfs wd wdl wnn wno wne weo wss wso wnf : Nat,
      wfs < 4294967296 → wd < 4294967296 → wdl < 4294967296 → wnn < 4294967296 →
      wno < 4294967296 → wne < 4294967296 → weo < 4294967296 → wss < 4294967296 →
      wso < 4294967296 → wnf < 65536 →
      ∃ hd : HeaderR,
        parseHeaderP (mkWireBlock wfs wd wdl wdl 0 0 wnn wno wne weo wss wso wnf 0 0) =
          .done [] hd ∧
        headerWrite hd = mkWireBlock wfs wd wdl wdl 0 0 wnn wno wne weo wss wso wnf 0 0) := by
  constructor
  · rintro ⟨fs, dOff, dl, nn, nOff, ne1, eOff, ss, sOff, nf⟩
      ⟨⟨b1, b2, b3, b4, b5, b6, b7, b8, b9, b10⟩, g1, g2, g3, g4⟩
    unfold headerWrite
    rw [parseHeaderP_mkWireBlock _ _ _ _ _ _ _ _ _ _ _ _ _ _ _
      b1 (wsub32_lt_u32 _ _) b3 b4 (wsub32_lt_u32 _ _) b6 (wsub32_lt_u32 _ _)
      b8 (wsub32_lt_u32 _ _) b10]
    rw [addsub32_cancel _ b2, addsub32_cancel _ b5, addsub32_cancel _ b7,
      addsub32_cancel _ b9]
  · intro wfs wd wdl wnn wno wne weo wss wso wnf h1 h2 h3 h4 h5 h6 h7 h8 h9 h10
    refine ⟨_, parseHeaderP_mkWireBlock wfs wd wdl wdl 0 0 wnn wno wne weo wss wso
      wnf 0 0 h1 h2 h3 h4 h5 h6 h7 h8 h9 h10, ?_⟩
    unfold headerWrite
    dsimp only
    rw [subadd32_cancel _ h2, subadd32_cancel _ h5, subadd32_cancel _ h7,
      subadd32_cancel _ h9]

/-- Witness for C2 at the repository's own handcrafted test header. -/
theorem spec_c2_header_roundtrip_witness :
    parseHeaderP (headerWrite ⟨0x13371337, 0x55555555, 0x6776, 0x70, 0x33333333,
      0xff, 0x53353376, 0xffff, 0x32547382, 0x1532⟩) =
      .done [] ⟨0x13371337, 0x55555555, 0x6776, 0x70, 0x33333333, 0xff,
        0x53353376, 0xffff, 0x32547382, 0x1532⟩ ∧
    (∃ hd : HeaderR,
      parseHeaderP (mkWireBlock 1 2 3 3 0 0 4 5 6 7 8 9 10 0 0) = .done [] hd ∧
      headerWrite hd = mkWireBlock 1 2 3 3 0 0 4 5 6 7 8 9 10 0 0) :=
  ⟨spec_c2_header_roundtrip.1 _ (by decide),
   spec_c2_header_roundtrip.2 1 2 3 4 5 6 7 8 9 10 (by norm_num) (by norm_num)
     (by norm_num) (by norm_num) (by norm_num) (by norm_num) (by norm_num)
     (by norm_num) (by norm_num) (by norm_num)⟩

/-- C8 (amended): each decoded offset field equals its wire field plus
0x20 whenever that sum is representable in a u32; wire values within 0x20
of the u32 maximum wrap (see the counterexample) instead of exceeding it. -/
theorem spec_c8_offset_normalization
    (wfs wd wdl wdup wr1 wr2 wnn wno wne weo wss wso wnf wz1 wz2 : Nat)
    (hfs : wfs < 4294967296) (hdl : wdl < 4294967296) (hnn : wnn < 4294967296)
    (hne : wne < 4294967296) (hss : wss < 4294967296) (hnf : wnf < 65536)
    (hd : wd + 0x20 < 4294967296) (hno : wno + 0x20 < 4294967296)
    (heo : weo + 0x20 < 4294967296) (hso : wso + 0x20 < 4294967296) :
    parseHeaderP (mkWireBlock wfs wd wdl wdup wr1 wr2 wnn wno wne weo wss wso wnf wz1 wz2) =
      .done [] ⟨wfs, wd + 0x20, wdl, wnn, wno + 0x20, wne, weo + 0x20, wss,
        wso + 0x20, wnf⟩ := by
  rw [parseHeaderP_mkWireBlock _ _ _ _ _ _ _ _ _ _ _ _ _ _ _
    hfs (by omega) hdl hnn (by omega) hne (by omega) hss (by omega) hnf]
  rw [add32_small _ _ hd, add32_small _ _ hno, add32_small _ _ heo,
    add32_small _ _ hso]

/-- Witness for the amended C8 at small wire values. -/
theorem spec_c8_offset_normalization_witness :
    parseHeaderP (mkWireBlock 1 2 3 4 5 6 7 8 9 10 11 12 13 14 15) =
      .done [] ⟨1, 0x22, 3, 7, 0x28, 9, 0x2A, 11, 0x2C, 13⟩ :=
  spec_c8_offset_normalization 1 2 3 4 5 6 7 8 9 10 11 12 13 14 15
    (by norm_num) (by norm_num) (by norm_num) (by norm_num) (by norm_num)
    (by norm_num) (by norm_num) (by norm_num) (by norm_num) (by norm_num)

/-- Counterexample for C8 as stated: at the wire value 0xFFFFFFFF (within
0x20 of the u32 maximum) the decoded data offset is 0x1F — the wrapped
`u32` sum — not the claimed wire value plus 0x20. -/
theorem spec_c8_offset_counterexample :
    parseHeaderP (mkWireBlock 1 4294967295 2 2 0 0 3 4 5 6 7 8 9 0 0) =
      .done [] ⟨1, 0x1F, 2, 3, 0x24, 5, 0x26, 7, 0x28, 9⟩ ∧
    (0x1F : Nat) ≠ 4294967295 + 0x20 := by
  exact ⟨by decide, by decide⟩

/-- C10: under the precondition that all four offsets are at least 0x20
the encoder's `offset - 0x20` subtractions are exact (the written wire
fields are the true differences and the encoder is total), while an offset
below 0x20 makes the subtraction underflow: it wraps to
`offset + 2^32 - 0x20` (in a debug build the same underflow aborts). -/
theorem spec_c10_write_underflow (h : HeaderR) :
    (fieldsInRange h →
      0x20 ≤ h.dataOffset → 0x20 ≤ h.nodesOffset → 0x20 ≤ h.entriesOffset →
      0x20 ≤ h.stringsOffset →
      headerWrite h = mkWireBlock h.fileSize (h.dataOffset - 0x20) h.dataLength
        h.dataLength 0 0 h.nNodes (h.nodesOffset - 0x20) h.nEntries
        (h.entriesOffset - 0x20) h.stringsSize (h.stringsOffset - 0x20) h.nFiles 0 0) ∧
    (h.dataOffset < 0x20 →
      wsub32 h.dataOffset 0x20 = 4294967264 + h.dataOffset) := by
  constructor
  · intro hr hd hn he hs
    obtain ⟨b1, b2, b3, b4, b5, b6, b7, b8, b9, b10⟩ := hr
    unfold headerWrite
    rw [wsub32_no_underflow _ hd b2, wsub32_no_underflow _ hn b5,
      wsub32_no_underflow _ he b7, wsub32_no_underflow _ hs b9]
  · intro hlt
    unfold wsub32
    omega

/-- Witness for C10: exact wire fields at offsets ≥ 0x20, and the wrapped
value at offset 0. -/
theorem spec_c10_write_underflow_witness :
    headerWrite ⟨1, 0x40, 2, 3, 0x50, 4, 0x60, 5, 0x70, 6⟩ =
      mkWireBlock 1 0x20 2 2 0 0 3 0x30 4 0x40 5 0x50 6 0 0 ∧
    wsub32 0 0x20 = 4294967264 + 0 :=
  ⟨(spec_c10_write_underflow ⟨1, 0x40, 2, 3, 0x50, 4, 0x60, 5, 0x70, 6⟩).1
      (by decide) (by decide) (by decide) (by decide) (by decide),
   (spec_c10_write_underflow ⟨0, 0, 0, 0, 0, 0, 0, 0, 0, 0⟩).2 (by decide)⟩

/-- C1 (code behaviour at the failing input): a twenty-byte entry record
whose 16-bit type tag is neither 0x0200 nor 0x1100 makes `parse_entry`
execute `panic!` — the process aborts instead of the claimed recoverable
Parse error through the error channel — while tag 0x0200 yields the Folder
variant and tag 0x1100 yields the File variant as claimed. -/
theorem spec_c1_entry_tag :
    parseEntryP [0, 0, 0, 0, 0, 0, 0, 0, 0, 0, 0, 0, 0, 0, 0, 0, 0, 0, 0, 0] =
      IRes.panicked ∧
    parseEntryP [0, 1, 0, 2, 0x02, 0x00, 0, 5, 0, 0, 0, 7, 0, 0, 0, 9, 0, 0, 0, 0] =
      .done [] (.folder 2 5 none 7) ∧
    parseEntryP [0, 1, 0, 2, 0x11, 0x00, 0, 5, 0, 0, 0, 7, 0, 0, 0, 9, 0, 0, 0, 0] =
      .done [] (.file 1 2 5 none 7 9) :=
  ⟨by decide, by decide, by decide⟩

theorem foldl_hash_lt (l : List Char) (a : Nat) (ha : a < 65536) :
    l.foldl (fun h c => hashStep h c.toNat) a < 65536 := by
  induction l generalizing a with
  | nil => exact ha
  | cons c l ih => exact ih _ (Nat.mod_lt _ (by norm_num))

/-- C6: the filename hash starts from a 16-bit accumulator of 0 and folds
each character in order by multiplying by 3 and adding its code point,
wrapping silently modulo 2^16 (the result is always below 2^16, and the
function is deterministic: hash "ROOT" is the fixed value 0xCAE). -/
theorem spec_c6_filename_hash :
    (∀ s : String,
      filenameHash s = s.data.foldl (fun h c => (h * 3 + c.toNat) % 65536) 0 ∧
      filenameHash s < 65536) ∧
    filenameHash "ROOT" = 0xCAE := by
  refine ⟨fun s => ⟨?_, ?_⟩, by decide⟩
  · have hstep : (fun (h : Nat) (c : Char) => hashStep h c.toNat) =
        fun h c => (h * 3 + c.toNat) % 65536 := by
      funext h c
      unfold hashStep
      omega
    rw [filenameHash, hstep]
  · exact foldl_hash_lt _ _ (by norm_num)

theorem readUntil0_no_zero (l : List Nat) (h : ∀ b ∈ l, b ≠ 0) :
    readUntil0 l = l := by
  induction l with
  | nil => rfl
  | cons b rest ih =>
    unfold readUntil0
    rw [if_neg (h b (by simp)), ih (fun x hx => h x (by simp [hx]))]

/-- C9: name resolution is total over the string table: an offset at or
past the table's end succeeds and resolves the name to the empty string
(for both Node and Entry), and when the bytes from the offset to the end
of the table contain no 0x00 terminator the read does not fail — the final
byte of the table is popped unconditionally before decoding. -/
theorem spec_c9_read_name :
    (∀ (table : List Nat) (n : NodeR), table.length ≤ n.filenameOffset →
      nodeReadName table n = .ok { n with name := some "" }) ∧
    (∀ (table : List Nat) (e : EntryR), table.length ≤ e.nameOffset →
      entryReadName table e = .ok (e.setName "")) ∧
    (∀ (table : List Nat) (off : Nat), (∀ b ∈ table.drop off, b ≠ 0) →
      readNameBytes table off = (table.drop off).dropLast) := by
  refine ⟨?_, ?_, ?_⟩
  · intro table n h
    have h1 : readNameBytes table n.filenameOffset = [] := by
      unfold readNameBytes
      rw [List.drop_eq_nil_of_le h]
      rfl
    unfold nodeReadName
    rw [h1, show decodeName [] = Except.ok "" from rfl]
  · intro table e h
    have h1 : readNameBytes table e.nameOffset = [] := by
      unfold readNameBytes
      rw [List.drop_eq_nil_of_le h]
      rfl
    unfold entryReadName
    rw [h1, show decodeName [] = Except.ok "" from rfl]
  · intro table off h
    unfold readNameBytes
    rw [readUntil0_no_zero _ h]

/-- Witness for C9 at a concrete two-byte table. -/
theorem spec_c9_read_name_witness :
    nodeReadName [65, 66] ⟨"ROOT", none, 5, 0, 0, 0⟩ =
      .ok ⟨"ROOT", some "", 5, 0, 0, 0⟩ ∧
    entryReadName [65, 66] (.file 0 0 9 none 0 0) = .ok (.file 0 0 9 (some "") 0 0) ∧
    readNameBytes [65, 66] 0 = [65] :=
  ⟨spec_c9_read_name.1 [65, 66] ⟨"ROOT", none, 5, 0, 0, 0⟩ (by decide),
   spec_c9_read_name.2.1 [65, 66] (.file 0 0 9 none 0 0) (by decide),
   spec_c9_read_name.2.2 [65, 66] 0 (by decide)⟩

theorem buildEntries_filter (fuel : Nat) (nodes : List NodeR) (entries : List EntryR) :
    ∀ l : List EntryR,
      buildEntries fuel nodes entries (l.filter keepEntry) =
        buildEntries fuel nodes entries l := by
  intro l
  induction l with
  | nil => rfl
  | cons e rest ih =>
    cases hk : keepEntry e
    · rw [List.filter_cons_of_neg (by simp [hk])]
      rw [ih]
      simp [buildEntries, hk]
    · rw [List.filter_cons_of_pos hk]
      simp [buildEntries, hk, ih]

/-- C3: the tree builder never materializes an entry whose name-table
offset is 0 or 2 — over any node's entry-range slice it computes exactly
what it computes on the slice with those reserved entries filtered out, at
every recursion level (the statement is universally quantified over the
node, hence applies to every directory of the tree). -/
theorem spec_c3_skip_reserved (fuel : Nat) (nodes : List NodeR)
    (entries : List EntryR) (node : NodeR) :
    nodeToDir (fuel + 1) nodes entries node =
      (sliceEntries entries node).bind
        (fun l => buildEntries fuel nodes entries (l.filter keepEntry)) := by
  cases hs : sliceEntries entries node with
  | none => simp [nodeToDir, hs]
  | some l => simp [nodeToDir, hs, buildEntries_filter]

theorem buildEntries_eq_mapM (fuel : Nat) (nodes : List NodeR) (entries : List EntryR) :
    ∀ l : List EntryR,
      buildEntries fuel nodes entries l =
        (l.filter keepEntry).mapM (buildChild fuel nodes entries) := by
  intro l
  induction l with
  | nil =>
    simp [buildEntries]
    rfl
  | cons e rest ih =>
    cases hk : keepEntry e
    · rw [List.filter_cons_of_neg (by simp [hk])]
      rw [← ih]
      simp [buildEntries, hk]
    · rw [List.filter_cons_of_pos hk, List.mapM_cons, ← ih]
      simp only [buildEntries, hk, if_true]
      cases hbc : buildChild fuel nodes entries e with
      | none => simp [hbc]
      | some v =>
        cases hbr : buildEntries fuel nodes entries rest <;> simp [hbc, hbr]

/-- C4: the children of the directory built for a node are exactly, and in
order, the images of the non-skipped entries of that node's entry-table
slice: a File entry contributes a file leaf carrying its resolved name and
(data_offset, data_length) bounds, and a Folder entry contributes the
directory built recursively from Node[folder_node_idx], attached in table
order (mapM over the filtered slice preserves that order). -/
theorem spec_c4_order_preserved (fuel : Nat) (nodes : List NodeR)
    (entries : List EntryR) (node : NodeR) :
    nodeToDir (fuel + 1) nodes entries node =
      (sliceEntries entries node).bind
        (fun l => (l.filter keepEntry).mapM (buildChild fuel nodes entries)) := by
  cases hs : sliceEntries entries node with
  | none => simp [nodeToDir, hs]
  | some l => simp [nodeToDir, hs, buildEntries_eq_mapM]

theorem readFromChunks_fst (src : List (List Nat)) :
    ∀ n : Nat, (readFromChunks src n).1 = src.flatten.take n := by
  induction src with
  | nil => intro n; simp [readFromChunks]
  | cons c src ih =>
    intro n
    by_cases hn : n = 0
    · subst hn; simp [readFromChunks]
    · by_cases hc : c.length ≤ n
      · simp only [readFromChunks, hn, hc, if_neg, if_pos, if_false, if_true]
        rw [ih]
        rw [List.flatten_cons, List.take_append_eq_append_take,
          List.take_of_length_le hc]
      · simp only [readFromChunks, hn, hc, if_neg, if_pos, if_false, if_true]
        rw [List.flatten_cons, List.take_append_eq_append_take]
        rw [show n - c.length = 0 by omega, List.take_zero, List.append_nil]

theorem readFromChunks_snd (src : List (List Nat)) :
    ∀ n : Nat, (readFromChunks src n).2.flatten = src.flatten.drop n := by
  induction src with
  | nil => intro n; simp [readFromChunks]
  | cons c src ih =>
    intro n
    by_cases hn : n = 0
    · subst hn; simp [readFromChunks]
    · by_cases hc : c.length ≤ n
      · simp only [readFromChunks, hn, hc, if_neg, if_pos, if_false, if_true]
        rw [ih]
        rw [List.flatten_cons, List.drop_append_eq_append_drop,
          List.drop_eq_nil_of_le hc, List.nil_append]
      · simp only [readFromChunks, hn, hc, if_neg, if_pos, if_false, if_true]
        rw [List.flatten_cons, List.flatten_cons,
          List.drop_append_eq_append_drop]
        rw [show n - c.length = 0 by omega, List.drop_zero]

theorem parseReadGo_flatten {α : Type} (fuel : Nat) (p : Parser α) :
    ∀ (input : List Nat) (s1 s2 : List (List Nat)), s1.flatten = s2.flatten →
      (parseReadGo fuel p input s1).map Prod.fst =
        (parseReadGo fuel p input s2).map Prod.fst := by
  induction fuel with
  | zero => intro input s1 s2 h; rfl
  | succ fuel ih =>
    intro input s1 s2 h
    unfold parseReadGo
    cases hp : p input with
    | done rest v => simp
    | perr k => simp
    | panicked => simp
    | incomplete needed =>
      simp only []
      rw [readFromChunks_fst, readFromChunks_fst, h]
      exact ih _ _ _ (by rw [readFromChunks_snd, readFromChunks_snd, h])

theorem flatten_singletons (bs : List Nat) : (bs.map fun b => [b]).flatten = bs := by
  induction bs with
  | nil => rfl
  | cons b bs ih => simp [ih]

/-- C7: running the incremental reader against a source that yields its
bytes one at a time produces the same result (parsed value, error, panic,
or divergence) as running it against the source that yields the whole
byte sequence in one chunk, for every parsing function; and when the
parser reports that it needs an unknown amount of further input, the grow
step asks for exactly one byte beyond what is buffered. -/
theorem spec_c7_incremental_equiv :
    (∀ (α : Type) (p : Parser α) (fuel : Nat) (bs : List Nat),
      (parseReadGo fuel p [] (bs.map fun b => [b])).map Prod.fst =
        (parseReadGo fuel p [] [bs]).map Prod.fst) ∧
    (∀ inputLen : Nat, needLen inputLen Needed.unknown - inputLen = 1) := by
  constructor
  · intro α p fuel bs
    exact parseReadGo_flatten fuel p [] _ _ (by rw [flatten_singletons]; simp)
  · intro n
    simp [needLen]

/-- C5: once the header has been read, a zero node count makes `Rarc::new`
return the NoNodes error before any table is read; and when the string
table has been sliced out and the node table has parsed and name-resolved
successfully but the first node's id is not "ROOT", `Rarc::new` returns
the NoRootNode error (before the entry table is read).  In both cases the
result is an error, never an archive handle. -/
theorem spec_c5_open_errors (fuel : Nat) (bytes : List Nat) (h : HeaderR)
    (src : List (List Nat))
    (hh : parseReadGo fuel parseHeaderP [] [bytes] = some (PRes.ok h, src)) :
    (h.nNodes = 0 → rarcNew fuel bytes = some (.fail .noNodes)) ∧
    (∀ (ns : List NodeR) (rest : List Nat) (n0 : NodeR),
      readRecs fuel parseNodeP
          (nodeReadName ((bytes.drop h.stringsOffset).take h.stringsSize))
          h.nNodes (bytes.drop h.nodesOffset) = some (.ok (ns, rest)) →
      ns.head? = some n0 → n0.id ≠ "ROOT" →
      rarcNew fuel bytes = some (.fail .noRootNode)) := by
  constructor
  · intro h0
    unfold rarcNew
    rw [hh]
    simp [h0]
  · intro ns rest n0 hrec hhead hid
    have hnz : h.nNodes ≠ 0 := by
      intro h0
      rw [h0] at hrec
      simp only [readRecs, Option.some.injEq, Outcome.ok.injEq, Prod.mk.injEq] at hrec
      rw [← hrec.1] at hhead
      simp at hhead
    unfold rarcNew
    rw [hh]
    simp only [if_neg hnz, hrec, hhead, if_neg hid]

/-- Witness for C5: a minimal archive whose header has a zero node count
is rejected with NoNodes, and a minimal archive whose single node is named
"FAKE" instead of "ROOT" is rejected with NoRootNode. -/
theorem spec_c5_open_errors_witness :
    rarcNew 64 (mkWireBlock 0x40 0x20 0 0 0 0 0 0x20 0 0x20 0 0x20 0 0 0) =
      some (.fail .noNodes) ∧
    rarcNew 64 (mkWireBlock 0x52 0x20 0 0 0 0 1 0x20 0 0x32 2 0x30 0 0 0 ++
        [0x46, 0x41, 0x4B, 0x45, 0, 0, 0, 0, 0, 0, 0, 0, 0, 0, 0, 0, 0x41, 0x00]) =
      some (.fail .noRootNode) :=
  ⟨(spec_c5_open_errors 64 (mkWireBlock 0x40 0x20 0 0 0 0 0 0x20 0 0x20 0 0x20 0 0 0)
      ⟨0x40, 0x40, 0, 0, 0x40, 0, 0x40, 0, 0x40, 0⟩ [] (by decide)).1 rfl,
   (spec_c5_open_errors 64 (mkWireBlock 0x52 0x20 0 0 0 0 1 0x20 0 0x32 2 0x30 0 0 0 ++
        [0x46, 0x41, 0x4B, 0x45, 0, 0, 0, 0, 0, 0, 0, 0, 0, 0, 0, 0, 0x41, 0x00])
      ⟨0x52, 0x40, 0, 1, 0x40, 0, 0x52, 2, 0x50, 0⟩
      [[0x46, 0x41, 0x4B, 0x45, 0, 0, 0, 0, 0, 0, 0, 0, 0, 0, 0, 0, 0x41, 0x00]]
      (by decide)).2
     [⟨"FAKE", some "A", 0, 0, 0, 0⟩] [0x41, 0x00] ⟨"FAKE", some "A", 0, 0, 0, 0⟩
     (by decide) (by decide) (by decide)⟩
